import Mathlib

/-!
Verification of `srtlangdetect.py` against its natural-language specification.

The development is a shallow embedding of the program:

* Strings are modelled as `List Char` (`Str`); Python `str.split(sep)`,
  `sep.join`, `str.lower`, `os.path.basename`, `os.path.dirname` and
  `os.path.join` are given as executable Lean functions with POSIX-path
  semantics.
* Python floats (the SDH ratio and the classifier confidence) are modelled as
  exact fractions `PyFrac` (numerator `Int`, positive denominator `Nat`); all
  arithmetic performed on them by the program (comparison with integer
  thresholds, `int()` truncation, multiplication by 100, division of two
  counters) is exact on such fractions.  Python's `round(x, 2)` is kept
  abstract as a parameter `round2 : PyFrac → PyFrac`, since its tie-breaking
  depends on binary floating point.
* The external collaborators (the `iso639` lookup service and the `langid`
  classifier) are abstracted: `Iso` is a record of lookup functions, and the
  classifier's output `(code, confidence)` is an input of the decision
  function.  Python functions that return `False` on failure are modelled
  with `Option`.
* The filesystem is modelled as the list `fs` of paths that exist on disk;
  `os.path.exists p` is membership in `fs`.  The unbounded collision-probe
  loop of `get_new_filename` is modelled with explicit fuel and returns
  `Option`; `none` models the loop not having terminated within the fuel.
-/

namespace SrtLangDetect

/-- Python strings, modelled as lists of characters. -/
abbrev Str := List Char

/-- Python `str.lower()` (ASCII case folding, which is what the program relies on). -/
def lowerStr (t : Str) : Str := t.map Char.toLower

/-- Implements `re.match(r"\d+", t)`: `t` starts with at least one decimal digit. -/
def digitStart (t : Str) : Bool :=
  match t with
  | [] => false
  | c :: _ => c.isDigit

/-- Implements `re.match(r"^\d{1,2}$", t)`: `t` is exactly one or two decimal digits. -/
def isDigits12 (t : Str) : Bool :=
  (t.length = 1 || t.length = 2) && t.all Char.isDigit

/-- Purely numeric tokens, the notion claim C7 states (`t.isdigit()` style). -/
def isPurelyNumeric (t : Str) : Bool :=
  !t.isEmpty && t.all Char.isDigit

/-- Python `s.split(sep)` for a one-character separator: always returns at
least one piece; adjacent separators yield empty pieces. -/
def splitOnChar (sep : Char) : Str → List Str
  | [] => [[]]
  | c :: rest =>
    if c = sep then
      [] :: splitOnChar sep rest
    else
      match splitOnChar sep rest with
      | [] => [[c]]
      | t :: ts => (c :: t) :: ts

/-- Python `sep.join(ts)` for a one-character separator. -/
def joinChar (sep : Char) : List Str → Str
  | [] => []
  | [t] => t
  | t :: ts => t ++ sep :: joinChar sep ts

/-- Python `os.path.basename` (POSIX): everything after the last `/`. -/
def pbasename (p : Str) : Str :=
  (p.reverse.takeWhile (fun c => ¬(c = '/'))).reverse

/-- Python `os.path.dirname` (POSIX): everything up to the last `/`, with trailing
slashes stripped unless the result consists only of slashes. -/
def pdirname (p : Str) : Str :=
  let head := (p.reverse.dropWhile (fun c => ¬(c = '/'))).reverse
  if head.all (fun c => c = '/') then head
  else (head.reverse.dropWhile (fun c => c = '/')).reverse

/-- Python `os.path.join a b` (POSIX, two arguments). -/
def pjoin (a b : Str) : Str :=
  if b.head? = some '/' then b
  else if a = [] ∨ a.getLast? = some '/' then a ++ b
  else a ++ '/' :: b

/-- The token `"srt"` (the subtitle extension). -/
def strSrt : Str := ['s', 'r', 't']

/-- The token `"forced"`. -/
def strForced : Str := ['f', 'o', 'r', 'c', 'e', 'd']

/-- The token `"cc"`. -/
def strCc : Str := ['c', 'c']

/-- The token `"sdh"`. -/
def strSdh : Str := ['s', 'd', 'h']

/-- The sentinel `"Unknown"`. -/
def strUnknown : Str := ['U', 'n', 'k', 'n', 'o', 'w', 'n']

/-- The 3-letter unknown-language sentinel `"unk"`. -/
def strUnk : Str := ['u', 'n', 'k']

/-- The 2-letter unknown-language sentinel `"un"`. -/
def strUn : Str := ['u', 'n']

/-- A Python float value, modelled as an exact fraction `num / den`.
Every `PyFrac` built by this development has a positive denominator. -/
structure PyFrac where
  num : Int
  den : Nat
deriving DecidableEq, Repr

/-- Comparison `x >= v` for a float `x` and an integer threshold `v`
(cross-multiplied, exact for positive denominators). -/
def PyFrac.geInt (a : PyFrac) (v : Int) : Bool :=
  decide (v * (a.den : Int) ≤ a.num)

/-- Comparison `x <= v` for a float `x` and an integer threshold `v`. -/
def PyFrac.leInt (a : PyFrac) (v : Int) : Bool :=
  decide (a.num ≤ v * (a.den : Int))

/-- Multiplication `x * k` for a float `x` and a literal natural number `k`. -/
def PyFrac.mulNat (a : PyFrac) (k : Nat) : PyFrac :=
  ⟨a.num * k, a.den⟩

/-- Python `int(x)`: truncation toward zero, which is exactly Lean's
`Int` T-division of the numerator by the denominator. -/
def pyInt (a : PyFrac) : Int :=
  a.num / (a.den : Int)

/-- The option validator `check_valid_percentage` (source lines 279–283): converts the argument and
checks the 0–100 range, raising `argparse.ArgumentTypeError` (modelled as
`Except.error`) with the message `"{0} is an invalid value"`.  The condition
in the source is `if 0 <= ivalue <= 100: raise ...`. -/
def check_valid_percentage (value : Int) : Except Str Int :=
  if 0 ≤ value ∧ value ≤ 100 then
    Except.error ((Int.repr value).data ++ (" is an invalid value").data)
  else
    Except.ok value

/-- The SDH hysteresis step of `lang_detect_srt` (source lines 132–140).
In the source, both assignments to `special_subs` are nested *inside* the
`if verbose:` block that guards the progress message, so the marker is only
ever modified when verbose output is enabled:

    if sdh_confidence >= args.min_sdh_confidence and
       sdh_confidence <= args.max_sdh_confidence and special_subs != "sdh":
        if verbose:
            print("Marking file as SDH")
            special_subs = "sdh"
    if sdh_confidence <= args.reject_sdh_confidence and special_subs == "sdh":
        if verbose:
            print("Removing SDH flag")
            special_subs = ""
-/
def sdh_hysteresis (verbose : Bool) (minSdh maxSdh rejectSdh : Int)
    (score : PyFrac) (special : Str) : Str :=
  let s1 :=
    if score.geInt minSdh && score.leInt maxSdh && !(special == strSdh) then
      (if verbose then strSdh else special)
    else special
  if score.leInt rejectSdh && (s1 == strSdh) then
    (if verbose then [] else s1)
  else s1

/-- C1: the claim states that after the SDH hysteresis step the special marker
is `SDH` whenever the score lies in `[minSdh, maxSdh]` and the parsed marker
was not already `SDH`, and that the outcome is the same for every verbosity
configuration.  The code contradicts this (and its own CLI help, which says
`--verbose` only affects what is printed): with the default thresholds
`min = 5, max = 85, reject = 1`, a score of 50 and an empty parsed marker,
a non-verbose run leaves the marker empty while a verbose run sets it to
`"sdh"`, because the assignments are indented under the `if verbose:` guard. -/
theorem C1_sdh_hysteresis_depends_on_verbosity :
    sdh_hysteresis false 5 85 1 ⟨50, 1⟩ [] = [] ∧
    sdh_hysteresis true 5 85 1 ⟨50, 1⟩ [] = strSdh ∧
    ([] : Str) ≠ strSdh := by
  decide

/-- C2: the claim states that `check_valid_percentage` accepts every integer
in `[0, 100]` and rejects every integer outside it.  The code does the exact
opposite: the range test is inverted, so every in-range value (50, 0, 100,
including the documented default 50) raises `ArgumentTypeError`, while the
out-of-range values 101 and −1 are returned as valid thresholds. -/
theorem C2_check_valid_percentage_inverted :
    (∃ e, check_valid_percentage 50 = Except.error e) ∧
    check_valid_percentage 101 = Except.ok 101 ∧
    check_valid_percentage (-1) = Except.ok (-1) ∧
    (∃ e, check_valid_percentage 0 = Except.error e) ∧
    (∃ e, check_valid_percentage 100 = Except.error e) := by
  exact ⟨⟨_, rfl⟩, rfl, rfl, ⟨_, rfl⟩, ⟨_, rfl⟩⟩

/-- The external `iso639` lookup service (out of scope per the spec), as the
record of the five functions the program calls.  The `to…` functions raise
`NonExistentLanguageError` for unknown codes; the program's wrappers turn
that into Python `False`, modelled here as `none`. -/
structure Iso where
  isValid1 : Str → Bool
  isValid2 : Str → Bool
  toIso1 : Str → Option Str
  toIso2 : Str → Option Str
  toName : Str → Option Str

/-- Wrapper `to_2_letter_lang` (source lines 413–417). -/
def to_2_letter_lang (iso : Iso) (lang : Str) : Option Str := iso.toIso1 lang

/-- Wrapper `to_3_letter_lang` (source lines 420–424). -/
def to_3_letter_lang (iso : Iso) (lang : Str) : Option Str := iso.toIso2 lang

/-- Wrapper `to_lang_name` (source lines 427–431). -/
def to_lang_name (iso : Iso) (lang : Str) : Option Str := iso.toName lang

/-- The state produced by the reversed token scan of `get_filename_language`
(source lines 290–315): the tentatively recorded language code, the special
marker, the forced flag, and the tokens the loop never visited (still in
reversed order) because it hit `break`. -/
structure ScanResult where
  subLang : Str
  special : Str
  forced : Bool
  rest : List Str
deriving DecidableEq, Repr

/-- The reversed token scan of `get_filename_language` (source lines
297–315), one `if`/`elif` arm per rule, in source order.  Note the numeric
rule is `re.match(r"\d+", part)`, which only requires a *digit prefix*. -/
def scan_filename_tokens : List Str → Str → Str → Bool → ScanResult
  | [], subLang, special, forced => ⟨subLang, special, forced, []⟩
  | t :: ts, subLang, special, forced =>
    if lowerStr t = strSrt then scan_filename_tokens ts subLang special forced
    else if lowerStr t = strForced then scan_filename_tokens ts subLang special true
    else if lowerStr t = strCc then scan_filename_tokens ts subLang strCc forced
    else if lowerStr t = strSdh then scan_filename_tokens ts subLang strSdh forced
    else if t.length = 2 ∨ t.length = 3 then
      scan_filename_tokens ts (lowerStr t) special forced
    else if digitStart t then scan_filename_tokens ts subLang special forced
    else ⟨subLang, special, forced, t :: ts⟩

/-- The post-scan ISO validation of `get_filename_language` (source lines
317–321): a recorded 2-or-3-character code that fails both ISO-639 lookups
becomes `"Unknown"`; anything of another length (in particular the initial
value `"Unknown"` itself, of length 7) becomes `"Unknown"`. -/
def validate_sub_lang (iso : Iso) (subLang : Str) : Str :=
  if subLang.length = 2 ∨ subLang.length = 3 then
    if !(iso.isValid1 subLang) && !(iso.isValid2 subLang) then strUnknown
    else subLang
  else strUnknown

/-- The tokenizer `get_filename_language` (source lines 286–323): split the basename on
periods, reverse, scan, then validate the recorded code against ISO 639. -/
def get_filename_language (iso : Iso) (full_path : Str) : Str × Str × Bool :=
  let parts := (splitOnChar '.' (pbasename full_path)).reverse
  let r := scan_filename_tokens parts strUnknown [] false
  (validate_sub_lang iso r.subLang, r.special, r.forced)

/-- Modelled from the spec, for comparison with the source in claim C7: the
same scan but with the numeric rule reading "token is purely numeric" (spec
§4.1 rule 6) instead of the source's digit-prefix `re.match(r"\d+", …)`. -/
def scan_filename_tokens_specRule : List Str → Str → Str → Bool → ScanResult
  | [], subLang, special, forced => ⟨subLang, special, forced, []⟩
  | t :: ts, subLang, special, forced =>
    if lowerStr t = strSrt then scan_filename_tokens_specRule ts subLang special forced
    else if lowerStr t = strForced then scan_filename_tokens_specRule ts subLang special true
    else if lowerStr t = strCc then scan_filename_tokens_specRule ts subLang strCc forced
    else if lowerStr t = strSdh then scan_filename_tokens_specRule ts subLang strSdh forced
    else if t.length = 2 ∨ t.length = 3 then
      scan_filename_tokens_specRule ts (lowerStr t) special forced
    else if isPurelyNumeric t then scan_filename_tokens_specRule ts subLang special forced
    else ⟨subLang, special, forced, t :: ts⟩

/-- Modelled from the spec: `get_filename_language` as claim C7 describes it,
built on the purely-numeric scan rule. -/
def get_filename_language_specRule (iso : Iso) (full_path : Str) : Str × Str × Bool :=
  let parts := (splitOnChar '.' (pbasename full_path)).reverse
  let r := scan_filename_tokens_specRule parts strUnknown [] false
  (validate_sub_lang iso r.subLang, r.special, r.forced)

/-- The condition under which the scan of `get_filename_language` consumes a
token and continues (the disjunction of its six `continue` arms). -/
def scan_token_continues (t : Str) : Bool :=
  decide (lowerStr t = strSrt) || decide (lowerStr t = strForced) ||
  decide (lowerStr t = strCc) || decide (lowerStr t = strSdh) ||
  decide (t.length = 2) || decide (t.length = 3) || digitStart t

theorem strForced_ne_strSrt : strForced ≠ strSrt := by decide

theorem strCc_ne_strSrt : strCc ≠ strSrt := by decide

theorem strCc_ne_strForced : strCc ≠ strForced := by decide

theorem strSdh_ne_strSrt : strSdh ≠ strSrt := by decide

theorem strSdh_ne_strForced : strSdh ≠ strForced := by decide

theorem strSdh_ne_strCc : strSdh ≠ strCc := by decide

/-- A concrete instance of the ISO-639 service for concrete runs: it knows
the codes en/eng (English), fr/fra (French) and es/spa (Spanish). -/
def isoDemo : Iso :=
  { isValid1 := fun t => t == ['e','n'] || t == ['f','r'] || t == ['e','s']
    isValid2 := fun t => t == ['e','n','g'] || t == ['f','r','a'] || t == ['s','p','a']
    toIso1 := fun t =>
      if t == ['e','n'] || t == ['e','n','g'] then some ['e','n']
      else if t == ['f','r'] || t == ['f','r','a'] then some ['f','r']
      else if t == ['e','s'] || t == ['s','p','a'] then some ['e','s']
      else none
    toIso2 := fun t =>
      if t == ['e','n'] || t == ['e','n','g'] then some ['e','n','g']
      else if t == ['f','r'] || t == ['f','r','a'] then some ['f','r','a']
      else if t == ['e','s'] || t == ['s','p','a'] then some ['s','p','a']
      else none
    toName := fun t =>
      if t == ['e','n'] || t == ['e','n','g'] then some ['E','n','g','l','i','s','h']
      else if t == ['f','r'] || t == ['f','r','a'] then some ['F','r','e','n','c','h']
      else if t == ['e','s'] || t == ['s','p','a'] then some ['S','p','a','n','i','s','h']
      else none }

/-- C7 fails on the code: in the filename `t.en.12ab.fr.srt`, the token
`12ab` is not purely numeric, yet the source's `re.match(r"\d+", part)`
accepts its digit prefix and the scan continues past it, so the earlier
token `en` overwrites `fr` as the recorded language.  Under the claim's
purely-numeric rule the scan would stop at `12ab` and report `fr`. -/
theorem C7_counterexample :
    isPurelyNumeric ['1','2','a','b'] = false ∧
    scan_token_continues ['1','2','a','b'] = true ∧
    (get_filename_language isoDemo
      ['t','.','e','n','.','1','2','a','b','.','f','r','.','s','r','t']).1 = ['e','n'] ∧
    (get_filename_language_specRule isoDemo
      ['t','.','e','n','.','1','2','a','b','.','f','r','.','s','r','t']).1 = ['f','r'] := by
  decide

/-- C7 (amended): in the reversed token scan, a token that is not the
extension marker, not forced/cc/sdh, and not of length 2 or 3 is skipped iff
it *begins with a decimal digit* (`re.match(r"\d+", …)` semantics, not
"purely numeric"); the scan stops at the first token matching none of the
rules, and exactly the not-yet-visited tokens, including that stopping
token, are left unconsumed (the source discards them; reversed back they
are the conceptual title tokens). -/
theorem C7_scan_skips_digit_prefixed_tokens (ts : List Str)
    (subLang special : Str) (forced : Bool) :
    (scan_filename_tokens ts subLang special forced).rest
      = ts.dropWhile scan_token_continues ∧
    (∀ t : Str, lowerStr t ≠ strSrt → lowerStr t ≠ strForced →
      lowerStr t ≠ strCc → lowerStr t ≠ strSdh →
      t.length ≠ 2 → t.length ≠ 3 →
      (scan_token_continues t = true ↔ digitStart t = true)) := by
  constructor
  · induction ts generalizing subLang special forced with
    | nil => rfl
    | cons t ts ih =>
      by_cases h1 : lowerStr t = strSrt
      · simp [scan_filename_tokens, List.dropWhile, scan_token_continues, h1, ih]
      · by_cases h2 : lowerStr t = strForced
        · simp [scan_filename_tokens, List.dropWhile, scan_token_continues, h1, h2, ih,
            strForced_ne_strSrt]
        · by_cases h3 : lowerStr t = strCc
          · simp [scan_filename_tokens, List.dropWhile, scan_token_continues, h1, h2, h3, ih,
              strCc_ne_strSrt, strCc_ne_strForced]
          · by_cases h4 : lowerStr t = strSdh
            · simp [scan_filename_tokens, List.dropWhile, scan_token_continues, h1, h2, h3, h4,
                ih, strSdh_ne_strSrt, strSdh_ne_strForced, strSdh_ne_strCc]
            · by_cases h5 : t.length = 2 ∨ t.length = 3
              · rcases h5 with h5 | h5 <;>
                  simp [scan_filename_tokens, List.dropWhile, scan_token_continues,
                    h1, h2, h3, h4, h5, ih]
              · push_neg at h5
                by_cases h6 : digitStart t = true
                · simp [scan_filename_tokens, List.dropWhile, scan_token_continues,
                    h1, h2, h3, h4, h5.1, h5.2, h6, ih]
                · simp only [Bool.not_eq_true] at h6
                  simp [scan_filename_tokens, List.dropWhile, scan_token_continues,
                    h1, h2, h3, h4, h5.1, h5.2, h6]
  · intro t ht1 ht2 ht3 ht4 ht5 ht6
    simp [scan_token_continues, ht1, ht2, ht3, ht4, ht5, ht6]

/-- Witness for C7's amended theorem: on the reversed token list of
`t.fr.12ab.srt`-style input, the scan consumes `srt`, `fr` and the
digit-prefixed `12ab`, stopping at `t`; and `12ab` satisfies the continue
condition. -/
theorem C7_scan_skips_digit_prefixed_tokens_witness :
    (scan_filename_tokens [['s','r','t'], ['f','r'], ['1','2','a','b'], ['t']]
      strUnknown [] false).rest = [['t']] ∧
    scan_token_continues ['1','2','a','b'] = true := by
  constructor
  · have h := (C7_scan_skips_digit_prefixed_tokens
      [['s','r','t'], ['f','r'], ['1','2','a','b'], ['t']] strUnknown [] false).1
    rw [h]; decide
  · exact ((C7_scan_skips_digit_prefixed_tokens [] strUnknown [] false).2
      ['1','2','a','b'] (by decide) (by decide) (by decide) (by decide)
      (by decide) (by decide)).mpr (by decide)

/-- C8: the language code returned by `get_filename_language` is either
`"Unknown"` or a 2-or-3-character code that the ISO-639 service validates
(2-letter or 3-letter form); and the validation step can only influence the
language component — the special marker and forced flag (and hence the
unvisited title-side tokens, which the function discards) are the same for
every ISO service, so a failed validation does not fall back into them. -/
theorem C8_parsed_language_validates (iso iso' : Iso) (full_path : Str) :
    ((get_filename_language iso full_path).1 = strUnknown ∨
      (((get_filename_language iso full_path).1.length = 2 ∨
        (get_filename_language iso full_path).1.length = 3) ∧
       (iso.isValid1 (get_filename_language iso full_path).1 = true ∨
        iso.isValid2 (get_filename_language iso full_path).1 = true))) ∧
    (get_filename_language iso full_path).2 = (get_filename_language iso' full_path).2 := by
  refine ⟨?_, rfl⟩
  show validate_sub_lang iso _ = strUnknown ∨
    ((validate_sub_lang iso _).length = 2 ∨ (validate_sub_lang iso _).length = 3) ∧
    (iso.isValid1 (validate_sub_lang iso _) = true ∨
     iso.isValid2 (validate_sub_lang iso _) = true)
  generalize (scan_filename_tokens ((splitOnChar '.' (pbasename full_path)).reverse)
    strUnknown [] false).subLang = s
  unfold validate_sub_lang
  split_ifs with h hv
  · exact Or.inl rfl
  · refine Or.inr ⟨h, ?_⟩
    cases h1 : iso.isValid1 s with
    | true => exact Or.inl rfl
    | false =>
      cases h2 : iso.isValid2 s with
      | true => exact Or.inr rfl
      | false => exact absurd (by simp [h1, h2]) hv
  · exact Or.inl rfl

/-- One recognized-token test of the removal loop of `get_new_filename`
(source lines 335–354), in source order: extension, `forced`, a 1-or-2-digit
ordinal (`re.match(r"^\d{1,2}$", …)`), `sdh`, `cc`, and the old or the new
language code — the last two by exact, case-sensitive string equality. -/
def strip_token_matches (language file_language t : Str) : Bool :=
  decide (lowerStr t = strSrt) || decide (lowerStr t = strForced) ||
  isDigits12 t || decide (lowerStr t = strSdh) || decide (lowerStr t = strCc) ||
  decide (t = file_language) || decide (t = language)

/-- The removal loop of `get_new_filename` (source lines 335–354): it
iterates over a copy of the reversed token list, removing each matching
token (`list.remove` deletes the first occurrence of the value, which is
always the head of what is left while every visited token has matched) and
bails at the first non-matching token. -/
def strip_tokens (language file_language : Str) : List Str → List Str
  | [] => []
  | t :: ts =>
    if strip_token_matches language file_language t then
      strip_tokens language file_language ts
    else t :: ts

/-- Python `[special] if special else []` — the optional special token appended by
the builder (source lines 371–372; Python truthiness: non-empty string). -/
def specialToks (special : Str) : List Str :=
  if special = [] then [] else [special]

/-- Python `["forced"] if forced else []` — the optional forced token appended by
the builder (source lines 374–375). -/
def forcedToks (forced : Bool) : List Str :=
  if forced then [strForced] else []

/-- One candidate assembled by the collision probe (source lines 363–379):
`title [+ str(i) if i >= 1] + language [+ special] [+ forced] + "srt"`,
joined with periods and placed under the original directory. -/
def build_candidate (directory : Str) (title : List Str) (language special : Str)
    (forced : Bool) (i : Nat) : Str :=
  let toks := title ++ (if 1 ≤ i then [Nat.toDigits 10 i] else [])
    ++ [language] ++ specialToks special ++ forcedToks forced ++ [strSrt]
  pjoin directory (joinChar '.' toks)

/-- The collision-probe loop of `get_new_filename` (source lines 361–393),
with explicit fuel: starting at ordinal `i`, stop on a candidate equal to
the original path, else stop on a candidate that does not exist on disk,
else increment `i` and retry.  `none` models the source's unbounded loop
not having stopped within the fuel. -/
def probe_new_filename (fs : List Str) (full_path directory : Str)
    (title : List Str) (language special : Str) (forced : Bool) :
    Nat → Nat → Option Str
  | 0, _ => none
  | fuel + 1, i =>
    let cand := build_candidate directory title language special forced i
    if cand = full_path then some cand
    else if ¬(cand ∈ fs) then some cand
    else probe_new_filename fs full_path directory title language special forced fuel (i + 1)

/-- The builder `get_new_filename` (source lines 326–395): tokenize the basename
(reversed), strip the reconstructible suffix, restore original order, then
probe for a free name.  `fs` is the list of paths existing on disk. -/
def get_new_filename (fs : List Str) (full_path language file_language special : Str)
    (forced : Bool) : Option Str :=
  let directory := pdirname full_path
  let parts := (splitOnChar '.' (pbasename full_path)).reverse
  let title := (strip_tokens language file_language parts).reverse
  probe_new_filename fs full_path directory title language special forced (fs.length + 1) 0

theorem probe_new_filename_spec (fs : List Str) (full_path directory : Str)
    (title : List Str) (language special : Str) (forced : Bool) :
    ∀ fuel i r,
      probe_new_filename fs full_path directory title language special forced fuel i = some r →
      (r = full_path ∨ r ∉ fs) ∧
      ∃ k, i ≤ k ∧ r = build_candidate directory title language special forced k ∧
        ∀ j, i ≤ j → j < k →
          build_candidate directory title language special forced j ≠ full_path ∧
          build_candidate directory title language special forced j ∈ fs := by
  intro fuel
  induction fuel with
  | zero =>
    intro i r h
    exact absurd h (by simp [probe_new_filename])
  | succ fuel ih =>
    intro i r h
    simp only [probe_new_filename] at h
    split_ifs at h with h1 h2
    · obtain rfl : build_candidate directory title language special forced i = r :=
        Option.some_injective _ h
      exact ⟨Or.inl h1, i, Nat.le_refl i, rfl, fun j hij hji => absurd hij (by omega)⟩
    · obtain ⟨hsafe, k, hik, hr, hmin⟩ := ih (i + 1) r h
      refine ⟨hsafe, k, by omega, hr, ?_⟩
      intro j hij hjk
      rcases Nat.eq_or_lt_of_le hij with hji | hji
      · subst hji
        exact ⟨h1, h2⟩
      · exact hmin j (by omega) hjk
    · obtain rfl : build_candidate directory title language special forced i = r :=
        Option.some_injective _ h
      exact ⟨Or.inr h2, i, Nat.le_refl i, rfl, fun j hij hji => absurd hij (by omega)⟩

/-- C5: whenever `get_new_filename` returns a path, that path either equals
the original input path or did not exist on disk when probed — it is never
the path of a different existing file, so a subsequent rename cannot
overwrite an unrelated file; and the returned path is the candidate of the
least ordinal (`0` meaning no ordinal token, then `1, 2, …`) at which the
probe stops: every smaller ordinal's candidate differed from the original
path and existed on disk. -/
theorem C5_get_new_filename_safe (fs : List Str)
    (full_path language file_language special : Str) (forced : Bool) (r : Str)
    (h : get_new_filename fs full_path language file_language special forced = some r) :
    (r = full_path ∨ r ∉ fs) ∧
    ∃ k, r = build_candidate (pdirname full_path)
        ((strip_tokens language file_language
          ((splitOnChar '.' (pbasename full_path)).reverse)).reverse)
        language special forced k ∧
      ∀ j < k,
        build_candidate (pdirname full_path)
          ((strip_tokens language file_language
            ((splitOnChar '.' (pbasename full_path)).reverse)).reverse)
          language special forced j ≠ full_path ∧
        build_candidate (pdirname full_path)
          ((strip_tokens language file_language
            ((splitOnChar '.' (pbasename full_path)).reverse)).reverse)
          language special forced j ∈ fs := by
  have h' : probe_new_filename fs full_path (pdirname full_path)
      ((strip_tokens language file_language
        ((splitOnChar '.' (pbasename full_path)).reverse)).reverse)
      language special forced (fs.length + 1) 0 = some r := h
  obtain ⟨hsafe, k, _, hr, hmin⟩ :=
    probe_new_filename_spec fs full_path (pdirname full_path)
      ((strip_tokens language file_language
        ((splitOnChar '.' (pbasename full_path)).reverse)).reverse)
      language special forced (fs.length + 1) 0 r h'
  exact ⟨hsafe, k, hr, fun j hj => hmin j (Nat.zero_le j) hj⟩

/-- The path `movie.fr.srt`. -/
def exPathFr : Str := ['m','o','v','i','e','.','f','r','.','s','r','t']

/-- The path `movie.en.srt`. -/
def exPathEn : Str := ['m','o','v','i','e','.','e','n','.','s','r','t']

/-- The path `movie.1.en.srt`. -/
def exPathEn1 : Str := ['m','o','v','i','e','.','1','.','e','n','.','s','r','t']

/-- Witness for C5: renaming `movie.fr.srt` to English while `movie.en.srt`
already exists on disk: the probe skips the occupied ordinal-0 candidate and
returns `movie.1.en.srt`, which is free. -/
theorem C5_get_new_filename_safe_witness :
    (exPathEn1 = exPathFr ∨ exPathEn1 ∉ [exPathEn]) ∧
    ∃ k, exPathEn1 = build_candidate (pdirname exPathFr)
        ((strip_tokens ['e','n'] ['f','r']
          ((splitOnChar '.' (pbasename exPathFr)).reverse)).reverse)
        ['e','n'] [] false k ∧
      ∀ j < k,
        build_candidate (pdirname exPathFr)
          ((strip_tokens ['e','n'] ['f','r']
            ((splitOnChar '.' (pbasename exPathFr)).reverse)).reverse)
          ['e','n'] [] false j ≠ exPathFr ∧
        build_candidate (pdirname exPathFr)
          ((strip_tokens ['e','n'] ['f','r']
            ((splitOnChar '.' (pbasename exPathFr)).reverse)).reverse)
          ['e','n'] [] false j ∈ [exPathEn] :=
  C5_get_new_filename_safe [exPathEn] exPathFr ['e','n'] ['f','r'] [] false exPathEn1
    (by decide)

theorem splitOnChar_ne_nil (sep : Char) (s : Str) : splitOnChar sep s ≠ [] := by
  cases s with
  | nil => simp [splitOnChar]
  | cons c rest =>
    by_cases h : c = sep
    · simp [splitOnChar, h]
    · simp only [splitOnChar, if_neg h]
      cases hs : splitOnChar sep rest <;> simp

theorem splitOnChar_of_not_mem (sep : Char) (s : Str) (h : sep ∉ s) :
    splitOnChar sep s = [s] := by
  induction s with
  | nil => rfl
  | cons c rest ih =>
    have hc : ¬(c = sep) := by
      rintro rfl
      exact h (List.mem_cons_self c rest)
    have hr : sep ∉ rest := fun hm => h (List.mem_cons_of_mem _ hm)
    simp [splitOnChar, hc, ih hr]

theorem splitOnChar_token_append (sep : Char) (t rest : Str) (h : sep ∉ t) :
    splitOnChar sep (t ++ sep :: rest) = t :: splitOnChar sep rest := by
  induction t with
  | nil => simp [splitOnChar]
  | cons c cs ih =>
    have hc : ¬(c = sep) := by
      rintro rfl
      exact h (List.mem_cons_self c cs)
    have hcs : sep ∉ cs := fun hm => h (List.mem_cons_of_mem _ hm)
    simp only [List.cons_append, splitOnChar, if_neg hc]
    have h2 : splitOnChar sep (cs.append (sep :: rest)) = cs :: splitOnChar sep rest :=
      ih hcs
    rw [h2]

theorem splitOnChar_joinChar (sep : Char) (ts : List Str) (hne : ts ≠ [])
    (hsep : ∀ t ∈ ts, sep ∉ t) : splitOnChar sep (joinChar sep ts) = ts := by
  induction ts with
  | nil => exact absurd rfl hne
  | cons t ts ih =>
    cases ts with
    | nil => exact splitOnChar_of_not_mem sep t (hsep t (by simp))
    | cons u us =>
      have hj : joinChar sep (t :: u :: us) = t ++ sep :: joinChar sep (u :: us) := by
        simp [joinChar]
      rw [hj, splitOnChar_token_append sep t _ (hsep t (by simp)),
        ih (by simp) (fun v hv => hsep v (List.mem_cons_of_mem _ hv))]

theorem eq_sep_or_mem_of_mem_joinChar (sep c : Char) (ts : List Str)
    (h : c ∈ joinChar sep ts) : c = sep ∨ ∃ t ∈ ts, c ∈ t := by
  induction ts with
  | nil => simp [joinChar] at h
  | cons t ts ih =>
    cases ts with
    | nil =>
      refine Or.inr ⟨t, by simp, ?_⟩
      simpa [joinChar] using h
    | cons u us =>
      have hj : joinChar sep (t :: u :: us) = t ++ sep :: joinChar sep (u :: us) := by
        simp [joinChar]
      rw [hj] at h
      rcases List.mem_append.mp h with h1 | h1
      · exact Or.inr ⟨t, by simp, h1⟩
      · rcases List.mem_cons.mp h1 with h2 | h2
        · exact Or.inl h2
        · rcases ih h2 with h3 | ⟨v, hv, hcv⟩
          · exact Or.inl h3
          · exact Or.inr ⟨v, List.mem_cons_of_mem _ hv, hcv⟩

theorem takeWhile_all_eq (f : Char → Bool) (l : Str) (h : ∀ c ∈ l, f c = true) :
    l.takeWhile f = l := by
  induction l with
  | nil => rfl
  | cons c cs ih =>
    simp [List.takeWhile_cons, h c (List.mem_cons_self c cs),
      ih (fun d hd => h d (List.mem_cons_of_mem _ hd))]

theorem dropWhile_all_eq_nil (f : Char → Bool) (l : Str) (h : ∀ c ∈ l, f c = true) :
    l.dropWhile f = [] := by
  induction l with
  | nil => rfl
  | cons c cs ih =>
    simp [List.dropWhile_cons, h c (List.mem_cons_self c cs),
      ih (fun d hd => h d (List.mem_cons_of_mem _ hd))]

theorem pbasename_of_no_slash (p : Str) (h : '/' ∉ p) : pbasename p = p := by
  unfold pbasename
  have hall : ∀ c ∈ p.reverse, (fun c => decide ¬(c = '/')) c = true := by
    intro c hc
    exact decide_eq_true (fun hc' => h (hc' ▸ List.mem_reverse.mp hc))
  rw [takeWhile_all_eq (fun c => decide ¬(c = '/')) p.reverse hall, List.reverse_reverse]

theorem pdirname_of_no_slash (p : Str) (h : '/' ∉ p) : pdirname p = [] := by
  unfold pdirname
  have hall : ∀ c ∈ p.reverse, (fun c => decide ¬(c = '/')) c = true := by
    intro c hc
    exact decide_eq_true (fun hc' => h (hc' ▸ List.mem_reverse.mp hc))
  rw [dropWhile_all_eq_nil (fun c => decide ¬(c = '/')) p.reverse hall]
  simp

theorem pjoin_nil_left (b : Str) (h : '/' ∉ b) : pjoin [] b = b := by
  cases b with
  | nil => simp [pjoin]
  | cons c cs =>
    have hc : ¬(c = '/') := fun hh => h (hh ▸ List.mem_cons_self c cs)
    simp [pjoin, hc]

theorem toLower_eq_of_isDigit (c : Char) (h : c.isDigit = true) : c.toLower = c := by
  have h2 : c.val ≤ 57 := by
    have h' : (decide (c.val ≥ 48) && decide (c.val ≤ 57)) = true := h
    simp only [Bool.and_eq_true, decide_eq_true_eq] at h'
    exact h'.2
  have h3 : c.val.toNat ≤ 57 := UInt32.toNat_le_of_le (by decide) h2
  have h5 : Char.toNat c = c.val.toNat := rfl
  show (if Char.toNat c ≥ 65 ∧ Char.toNat c ≤ 90 then Char.ofNat (Char.toNat c + 32) else c) = c
  split_ifs with hc
  · exact absurd hc.1 (by omega)
  · rfl

theorem lowerStr_of_all_digits (t : Str) (h : t.all Char.isDigit = true) :
    lowerStr t = t := by
  unfold lowerStr
  induction t with
  | nil => rfl
  | cons c cs ih =>
    simp only [List.all_cons, Bool.and_eq_true] at h
    simp [toLower_eq_of_isDigit c h.1, ih h.2]

theorem isDigits12_eq_false_of_not_digitStart (t : Str) (h : digitStart t = false) :
    isDigits12 t = false := by
  cases t with
  | nil => rfl
  | cons c cs =>
    have hc : c.isDigit = false := h
    simp [isDigits12, List.all_cons, hc]

theorem lowerStr_strSrt : lowerStr strSrt = strSrt := by decide

theorem lowerStr_strForced : lowerStr strForced = strForced := by decide

theorem lowerStr_strCc : lowerStr strCc = strCc := by decide

theorem lowerStr_strSdh : lowerStr strSdh = strSdh := by decide

theorem lowerStr_length (t : Str) : (lowerStr t).length = t.length := by
  simp [lowerStr]

theorem scan_cons_srt (ts : List Str) (l s : Str) (f : Bool) :
    scan_filename_tokens (strSrt :: ts) l s f = scan_filename_tokens ts l s f := by
  simp only [scan_filename_tokens]
  rw [if_pos lowerStr_strSrt]

theorem scan_cons_forced (ts : List Str) (l s : Str) (f : Bool) :
    scan_filename_tokens (strForced :: ts) l s f = scan_filename_tokens ts l s true := by
  simp only [scan_filename_tokens]
  rw [if_neg (lowerStr_strForced ▸ strForced_ne_strSrt), if_pos lowerStr_strForced]

theorem scan_cons_cc (ts : List Str) (l s : Str) (f : Bool) :
    scan_filename_tokens (strCc :: ts) l s f = scan_filename_tokens ts l strCc f := by
  simp only [scan_filename_tokens]
  rw [if_neg (lowerStr_strCc ▸ strCc_ne_strSrt),
    if_neg (lowerStr_strCc ▸ strCc_ne_strForced), if_pos lowerStr_strCc]

theorem scan_cons_sdh (ts : List Str) (l s : Str) (f : Bool) :
    scan_filename_tokens (strSdh :: ts) l s f = scan_filename_tokens ts l strSdh f := by
  simp only [scan_filename_tokens]
  rw [if_neg (lowerStr_strSdh ▸ strSdh_ne_strSrt),
    if_neg (lowerStr_strSdh ▸ strSdh_ne_strForced),
    if_neg (lowerStr_strSdh ▸ strSdh_ne_strCc), if_pos lowerStr_strSdh]

theorem scan_cons_lang (ts : List Str) (l s lang : Str) (f : Bool)
    (hlen : lang.length = 2 ∨ lang.length = 3)
    (h1 : lowerStr lang ≠ strSrt) (h3 : lowerStr lang ≠ strCc)
    (h4 : lowerStr lang ≠ strSdh) :
    scan_filename_tokens (lang :: ts) l s f = scan_filename_tokens ts (lowerStr lang) s f := by
  have h2 : lowerStr lang ≠ strForced := by
    intro hh
    have h6 : (lowerStr lang).length = 6 := by rw [hh]; rfl
    rw [lowerStr_length] at h6
    rcases hlen with h | h <;> omega
  simp only [scan_filename_tokens]
  rw [if_neg h1, if_neg h2, if_neg h3, if_neg h4, if_pos hlen]

theorem scan_cons_stop (ts : List Str) (l s t : Str) (f : Bool)
    (h1 : lowerStr t ≠ strSrt) (h2 : lowerStr t ≠ strForced) (h3 : lowerStr t ≠ strCc)
    (h4 : lowerStr t ≠ strSdh) (h5 : t.length ≠ 2) (h6 : t.length ≠ 3)
    (h7 : digitStart t = false) :
    scan_filename_tokens (t :: ts) l s f = ⟨l, s, f, t :: ts⟩ := by
  simp only [scan_filename_tokens]
  rw [if_neg h1, if_neg h2, if_neg h3, if_neg h4,
    if_neg (by rintro (hh | hh); exacts [h5 hh, h6 hh]), if_neg (by simp [h7])]

theorem strip_cons_matches (language file_language t : Str) (ts : List Str)
    (h : strip_token_matches language file_language t = true) :
    strip_tokens language file_language (t :: ts) = strip_tokens language file_language ts := by
  simp [strip_tokens, h]

theorem strip_cons_stop (language file_language t : Str) (ts : List Str)
    (h : strip_token_matches language file_language t = false) :
    strip_tokens language file_language (t :: ts) = t :: ts := by
  simp [strip_tokens, h]

theorem strip_matches_srt (language file_language : Str) :
    strip_token_matches language file_language strSrt = true := by
  simp [strip_token_matches, lowerStr_strSrt]

theorem strip_matches_forced (language file_language : Str) :
    strip_token_matches language file_language strForced = true := by
  simp [strip_token_matches, lowerStr_strForced]

theorem strip_matches_sdh (language file_language : Str) :
    strip_token_matches language file_language strSdh = true := by
  simp [strip_token_matches, lowerStr_strSdh]

theorem strip_matches_cc (language file_language : Str) :
    strip_token_matches language file_language strCc = true := by
  simp [strip_token_matches, lowerStr_strCc]

theorem strip_matches_file_language (language file_language : Str) :
    strip_token_matches language file_language file_language = true := by
  simp [strip_token_matches]

theorem forcedToks_false : forcedToks false = [] := rfl

theorem forcedToks_true : forcedToks true = [strForced] := rfl

theorem specialToks_nil : specialToks [] = [] := rfl

theorem specialToks_sdh : specialToks strSdh = [strSdh] := by
  simp [specialToks, strSdh]

theorem specialToks_cc : specialToks strCc = [strCc] := by
  simp [specialToks, strCc]

/-- C6 fails on the code: `movie.1.en.srt` matches the canonical grammar
(title `movie`, ordinal `1`, language `en`) and parses to language `en`,
yet rebuilding with resolved language equal to the parsed language (on an
empty filesystem) yields `movie.en.srt`, not the original name: the builder
strips the 1-digit ordinal and its collision probe restarts at ordinal 0,
so the original name is reproduced only when `movie.en.srt` happens to be
occupied on disk. -/
theorem C6_counterexample :
    get_filename_language isoDemo exPathEn1 = (['e','n'], [], false) ∧
    get_new_filename [] exPathEn1 ['e','n'] ['e','n'] [] false = some exPathEn ∧
    exPathEn ≠ exPathEn1 := by
  decide

/-- C6 (amended): the tokenize-then-rebuild round trip is byte-for-byte
exact — for any filesystem state — for canonical names *without an ordinal*
whose tokens are period- and slash-free, whose language token is a lowercase
ISO-valid 2-or-3-letter code other than the marker words, and whose final
title token matches no scan rule (not srt/forced/cc/sdh in any case, not of
length 2 or 3, not digit-leading).  Names with an ordinal, or whose trailing
title token looks like a marker/language/ordinal token, are not reproduced
(see the counterexample). -/
theorem C6_roundtrip_amended (iso : Iso) (fs : List Str) (title : List Str)
    (tl lang special : Str) (forced : Bool)
    (hTokDot : ∀ t ∈ title, '.' ∉ t) (hTlDot : '.' ∉ tl) (hLangDot : '.' ∉ lang)
    (hTokSlash : ∀ t ∈ title, '/' ∉ t) (hTlSlash : '/' ∉ tl) (hLangSlash : '/' ∉ lang)
    (hLen : lang.length = 2 ∨ lang.length = 3)
    (hLower : lowerStr lang = lang)
    (hKw1 : lang ≠ strSrt) (hKw2 : lang ≠ strCc) (hKw3 : lang ≠ strSdh)
    (hValid : iso.isValid1 lang = true ∨ iso.isValid2 lang = true)
    (hSpecial : special = [] ∨ special = strSdh ∨ special = strCc)
    (hTl1 : lowerStr tl ≠ strSrt) (hTl2 : lowerStr tl ≠ strForced)
    (hTl3 : lowerStr tl ≠ strCc) (hTl4 : lowerStr tl ≠ strSdh)
    (hTl5 : tl.length ≠ 2) (hTl6 : tl.length ≠ 3) (hTl7 : digitStart tl = false) :
    get_filename_language iso
      (joinChar '.' (title ++ [tl, lang] ++ specialToks special ++ forcedToks forced ++ [strSrt]))
      = (lang, special, forced) ∧
    get_new_filename fs
      (joinChar '.' (title ++ [tl, lang] ++ specialToks special ++ forcedToks forced ++ [strSrt]))
      lang lang special forced
      = some (joinChar '.'
          (title ++ [tl, lang] ++ specialToks special ++ forcedToks forced ++ [strSrt])) := by
  set nameToks : List Str :=
    title ++ [tl, lang] ++ specialToks special ++ forcedToks forced ++ [strSrt] with hNT
  set name : Str := joinChar '.' nameToks with hName
  have hMem : ∀ t ∈ nameToks, t ∈ title ∨ t = tl ∨ t = lang ∨ t = strSdh ∨ t = strCc ∨
      t = strForced ∨ t = strSrt := by
    intro t ht
    rw [hNT] at ht
    rcases List.mem_append.mp ht with h1 | h1
    · rcases List.mem_append.mp h1 with h2 | h2
      · rcases List.mem_append.mp h2 with h3 | h3
        · rcases List.mem_append.mp h3 with h4 | h4
          · exact Or.inl h4
          · rcases List.mem_cons.mp h4 with h5 | h5
            · exact Or.inr (Or.inl h5)
            · exact Or.inr (Or.inr (Or.inl (by simpa using h5)))
        · rcases hSpecial with hS | hS | hS <;> rw [hS] at h3
          · simp [specialToks_nil] at h3
          · rw [specialToks_sdh] at h3
            exact Or.inr (Or.inr (Or.inr (Or.inl (by simpa using h3))))
          · rw [specialToks_cc] at h3
            exact Or.inr (Or.inr (Or.inr (Or.inr (Or.inl (by simpa using h3)))))
      · cases forced
        · simp [forcedToks_false] at h2
        · rw [forcedToks_true] at h2
          exact Or.inr (Or.inr (Or.inr (Or.inr (Or.inr (Or.inl (by simpa using h2))))))
    · exact Or.inr (Or.inr (Or.inr (Or.inr (Or.inr (Or.inr (by simpa using h1))))))
  have hToksDot : ∀ t ∈ nameToks, '.' ∉ t := by
    intro t ht
    rcases hMem t ht with h | rfl | rfl | rfl | rfl | rfl | rfl
    · exact hTokDot t h
    · exact hTlDot
    · exact hLangDot
    · decide
    · decide
    · decide
    · decide
  have hToksSlash : ∀ t ∈ nameToks, '/' ∉ t := by
    intro t ht
    rcases hMem t ht with h | rfl | rfl | rfl | rfl | rfl | rfl
    · exact hTokSlash t h
    · exact hTlSlash
    · exact hLangSlash
    · decide
    · decide
    · decide
    · decide
  have hNoSlash : '/' ∉ name := by
    intro hc
    rw [hName] at hc
    rcases eq_sep_or_mem_of_mem_joinChar '.' '/' nameToks hc with h | ⟨t, ht, hct⟩
    · exact absurd h (by decide)
    · exact hToksSlash t ht hct
  have hNe : nameToks ≠ [] := by
    rw [hNT]
    intro hh
    have h0 := congrArg List.length hh
    simp at h0
  have hBase : pbasename name = name := pbasename_of_no_slash name hNoSlash
  have hDir : pdirname name = [] := pdirname_of_no_slash name hNoSlash
  have hSplit : splitOnChar '.' name = nameToks := by
    rw [hName]
    exact splitOnChar_joinChar '.' nameToks hNe hToksDot
  have hRev : nameToks.reverse
      = strSrt :: ((forcedToks forced).reverse ++ ((specialToks special).reverse ++
          (lang :: tl :: title.reverse))) := by
    simp [hNT, List.reverse_append, List.append_assoc]
  have hstop : ∀ l s : Str, ∀ f : Bool,
      scan_filename_tokens (tl :: title.reverse) l s f = ⟨l, s, f, tl :: title.reverse⟩ :=
    fun l s f => scan_cons_stop title.reverse l s tl f hTl1 hTl2 hTl3 hTl4 hTl5 hTl6 hTl7
  have hlang : ∀ ts : List Str, ∀ l s : Str, ∀ f : Bool,
      scan_filename_tokens (lang :: ts) l s f = scan_filename_tokens ts lang s f := by
    intro ts l s f
    rw [scan_cons_lang ts l s lang f hLen (by rw [hLower]; exact hKw1)
      (by rw [hLower]; exact hKw2) (by rw [hLower]; exact hKw3), hLower]
  have hScan : scan_filename_tokens nameToks.reverse strUnknown [] false
      = ⟨lang, special, forced, tl :: title.reverse⟩ := by
    rw [hRev, scan_cons_srt]
    cases forced with
    | false =>
      rw [forcedToks_false, List.reverse_nil, List.nil_append]
      rcases hSpecial with hS | hS | hS <;> subst hS
      · rw [specialToks_nil, List.reverse_nil, List.nil_append, hlang, hstop]
      · rw [specialToks_sdh, List.reverse_singleton, List.singleton_append,
          scan_cons_sdh, hlang, hstop]
      · rw [specialToks_cc, List.reverse_singleton, List.singleton_append,
          scan_cons_cc, hlang, hstop]
    | true =>
      rw [forcedToks_true, List.reverse_singleton, List.singleton_append, scan_cons_forced]
      rcases hSpecial with hS | hS | hS <;> subst hS
      · rw [specialToks_nil, List.reverse_nil, List.nil_append, hlang, hstop]
      · rw [specialToks_sdh, List.reverse_singleton, List.singleton_append,
          scan_cons_sdh, hlang, hstop]
      · rw [specialToks_cc, List.reverse_singleton, List.singleton_append,
          scan_cons_cc, hlang, hstop]
  have hTlNeLang : tl ≠ lang := by
    intro hh
    rw [hh] at hTl5 hTl6
    rcases hLen with h | h
    · exact hTl5 h
    · exact hTl6 h
  have hTlMatch : strip_token_matches lang lang tl = false := by
    simp [strip_token_matches, hTl1, hTl2, hTl3, hTl4, hTlNeLang,
      isDigits12_eq_false_of_not_digitStart tl hTl7]
  have hStrip : strip_tokens lang lang nameToks.reverse = tl :: title.reverse := by
    rw [hRev, strip_cons_matches _ _ _ _ (strip_matches_srt lang lang)]
    cases forced with
    | false =>
      rw [forcedToks_false, List.reverse_nil, List.nil_append]
      rcases hSpecial with hS | hS | hS <;> subst hS
      · rw [specialToks_nil, List.reverse_nil, List.nil_append,
          strip_cons_matches _ _ _ _ (strip_matches_file_language lang lang),
          strip_cons_stop _ _ _ _ hTlMatch]
      · rw [specialToks_sdh, List.reverse_singleton, List.singleton_append,
          strip_cons_matches _ _ _ _ (strip_matches_sdh lang lang),
          strip_cons_matches _ _ _ _ (strip_matches_file_language lang lang),
          strip_cons_stop _ _ _ _ hTlMatch]
      · rw [specialToks_cc, List.reverse_singleton, List.singleton_append,
          strip_cons_matches _ _ _ _ (strip_matches_cc lang lang),
          strip_cons_matches _ _ _ _ (strip_matches_file_language lang lang),
          strip_cons_stop _ _ _ _ hTlMatch]
    | true =>
      rw [forcedToks_true, List.reverse_singleton, List.singleton_append,
        strip_cons_matches _ _ _ _ (strip_matches_forced lang lang)]
      rcases hSpecial with hS | hS | hS <;> subst hS
      · rw [specialToks_nil, List.reverse_nil, List.nil_append,
          strip_cons_matches _ _ _ _ (strip_matches_file_language lang lang),
          strip_cons_stop _ _ _ _ hTlMatch]
      · rw [specialToks_sdh, List.reverse_singleton, List.singleton_append,
          strip_cons_matches _ _ _ _ (strip_matches_sdh lang lang),
          strip_cons_matches _ _ _ _ (strip_matches_file_language lang lang),
          strip_cons_stop _ _ _ _ hTlMatch]
      · rw [specialToks_cc, List.reverse_singleton, List.singleton_append,
          strip_cons_matches _ _ _ _ (strip_matches_cc lang lang),
          strip_cons_matches _ _ _ _ (strip_matches_file_language lang lang),
          strip_cons_stop _ _ _ _ hTlMatch]
  constructor
  · show (validate_sub_lang iso
        (scan_filename_tokens ((splitOnChar '.' (pbasename name)).reverse)
          strUnknown [] false).subLang,
      (scan_filename_tokens ((splitOnChar '.' (pbasename name)).reverse)
          strUnknown [] false).special,
      (scan_filename_tokens ((splitOnChar '.' (pbasename name)).reverse)
          strUnknown [] false).forced) = (lang, special, forced)
    rw [hBase, hSplit, hScan]
    have hval : validate_sub_lang iso lang = lang := by
      unfold validate_sub_lang
      rw [if_pos hLen]
      rcases hValid with hv | hv <;> simp [hv]
    rw [hval]
  · show probe_new_filename fs name (pdirname name)
      ((strip_tokens lang lang ((splitOnChar '.' (pbasename name)).reverse)).reverse)
      lang special forced (fs.length + 1) 0 = some name
    rw [hBase, hSplit, hStrip, hDir]
    have hcand : build_candidate [] (tl :: title.reverse).reverse lang special forced 0
        = name := by
      simp only [build_candidate]
      rw [if_neg (by decide : ¬(1 ≤ 0))]
      have htoks : (tl :: title.reverse).reverse ++ ([] : List Str) ++ [lang]
          ++ specialToks special ++ forcedToks forced ++ [strSrt] = nameToks := by
        rw [hNT]
        simp [List.reverse_cons, List.reverse_reverse, List.append_assoc]
      rw [htoks, ← hName]
      exact pjoin_nil_left name hNoSlash
    simp only [probe_new_filename]
    rw [hcand]
    simp

/-- Witness for C6's amended theorem: the round trip at
`movie.hello.en.sdh.forced.srt` (title `movie.hello`, language `en`, marker
`sdh`, forced), with the known codes of `isoDemo`, on an empty filesystem. -/
theorem C6_roundtrip_amended_witness :
    get_filename_language isoDemo
      (joinChar '.' ([['m','o','v','i','e']] ++ [['h','e','l','l','o'], ['e','n']]
        ++ specialToks strSdh ++ forcedToks true ++ [strSrt]))
      = (['e','n'], strSdh, true) ∧
    get_new_filename []
      (joinChar '.' ([['m','o','v','i','e']] ++ [['h','e','l','l','o'], ['e','n']]
        ++ specialToks strSdh ++ forcedToks true ++ [strSrt]))
      ['e','n'] ['e','n'] strSdh true
      = some (joinChar '.' ([['m','o','v','i','e']] ++ [['h','e','l','l','o'], ['e','n']]
          ++ specialToks strSdh ++ forcedToks true ++ [strSrt])) :=
  C6_roundtrip_amended isoDemo [] [['m','o','v','i','e']] ['h','e','l','l','o'] ['e','n']
    strSdh true
    (by decide) (by decide) (by decide) (by decide) (by decide) (by decide)
    (by decide) (by decide) (by decide) (by decide) (by decide) (by decide)
    (by decide) (by decide) (by decide) (by decide) (by decide) (by decide)
    (by decide) (by decide)

/-- C10: `get_filename_language` recognizes its marker and language tokens
case-insensitively and records the language code lowercased, whereas
`get_new_filename` removes a trailing token as the old or new language code
only under exact case-sensitive string equality.  Consequently, for a
grammar-shaped filename whose trailing language token `L` contains an
uppercase letter (`lowerStr L ≠ L`), the tokenizer reports `lowerStr L` as
the parsed language code, but the builder's removal loop stops at `L` and
keeps that token — and every token before it — as part of the title, so the
rebuilt name still contains `L` followed by the freshly appended language. -/
theorem C10_case_mismatch_keeps_uppercase_token (iso : Iso) (title : List Str)
    (tl L language special : Str) (forced : Bool)
    (hTokDot : ∀ t ∈ title, '.' ∉ t) (hTlDot : '.' ∉ tl) (hLDot : '.' ∉ L)
    (hTokSlash : ∀ t ∈ title, '/' ∉ t) (hTlSlash : '/' ∉ tl) (hLSlash : '/' ∉ L)
    (hLangSlash : '/' ∉ language)
    (hLen : L.length = 2 ∨ L.length = 3)
    (hUpper : lowerStr L ≠ L)
    (hKw1 : lowerStr L ≠ strSrt) (hKw2 : lowerStr L ≠ strCc) (hKw3 : lowerStr L ≠ strSdh)
    (hValid : iso.isValid1 (lowerStr L) = true ∨ iso.isValid2 (lowerStr L) = true)
    (hSpecial : special = [] ∨ special = strSdh ∨ special = strCc)
    (hLangNe : language ≠ L)
    (hTl1 : lowerStr tl ≠ strSrt) (hTl2 : lowerStr tl ≠ strForced)
    (hTl3 : lowerStr tl ≠ strCc) (hTl4 : lowerStr tl ≠ strSdh)
    (hTl5 : tl.length ≠ 2) (hTl6 : tl.length ≠ 3) (hTl7 : digitStart tl = false) :
    get_filename_language iso
      (joinChar '.' (title ++ [tl, L] ++ specialToks special ++ forcedToks forced ++ [strSrt]))
      = (lowerStr L, special, forced) ∧
    strip_tokens language (lowerStr L)
      ((splitOnChar '.' (pbasename (joinChar '.'
        (title ++ [tl, L] ++ specialToks special ++ forcedToks forced ++ [strSrt])))).reverse)
      = L :: tl :: title.reverse ∧
    get_new_filename []
      (joinChar '.' (title ++ [tl, L] ++ specialToks special ++ forcedToks forced ++ [strSrt]))
      language (lowerStr L) special forced
      = some (joinChar '.' (title ++ [tl, L] ++ [language]
          ++ specialToks special ++ forcedToks forced ++ [strSrt])) := by
  set nameToks : List Str :=
    title ++ [tl, L] ++ specialToks special ++ forcedToks forced ++ [strSrt] with hNT
  set name : Str := joinChar '.' nameToks with hName
  have hMem : ∀ t ∈ nameToks, t ∈ title ∨ t = tl ∨ t = L ∨ t = strSdh ∨ t = strCc ∨
      t = strForced ∨ t = strSrt := by
    intro t ht
    rw [hNT] at ht
    rcases List.mem_append.mp ht with h1 | h1
    · rcases List.mem_append.mp h1 with h2 | h2
      · rcases List.mem_append.mp h2 with h3 | h3
        · rcases List.mem_append.mp h3 with h4 | h4
          · exact Or.inl h4
          · rcases List.mem_cons.mp h4 with h5 | h5
            · exact Or.inr (Or.inl h5)
            · exact Or.inr (Or.inr (Or.inl (by simpa using h5)))
        · rcases hSpecial with hS | hS | hS <;> rw [hS] at h3
          · simp [specialToks_nil] at h3
          · rw [specialToks_sdh] at h3
            exact Or.inr (Or.inr (Or.inr (Or.inl (by simpa using h3))))
          · rw [specialToks_cc] at h3
            exact Or.inr (Or.inr (Or.inr (Or.inr (Or.inl (by simpa using h3)))))
      · cases forced
        · simp [forcedToks_false] at h2
        · rw [forcedToks_true] at h2
          exact Or.inr (Or.inr (Or.inr (Or.inr (Or.inr (Or.inl (by simpa using h2))))))
    · exact Or.inr (Or.inr (Or.inr (Or.inr (Or.inr (Or.inr (by simpa using h1))))))
  have hToksDot : ∀ t ∈ nameToks, '.' ∉ t := by
    intro t ht
    rcases hMem t ht with h | rfl | rfl | rfl | rfl | rfl | rfl
    · exact hTokDot t h
    · exact hTlDot
    · exact hLDot
    · decide
    · decide
    · decide
    · decide
  have hToksSlash : ∀ t ∈ nameToks, '/' ∉ t := by
    intro t ht
    rcases hMem t ht with h | rfl | rfl | rfl | rfl | rfl | rfl
    · exact hTokSlash t h
    · exact hTlSlash
    · exact hLSlash
    · decide
    · decide
    · decide
    · decide
  have hNoSlash : '/' ∉ name := by
    intro hc
    rw [hName] at hc
    rcases eq_sep_or_mem_of_mem_joinChar '.' '/' nameToks hc with h | ⟨t, ht, hct⟩
    · exact absurd h (by decide)
    · exact hToksSlash t ht hct
  have hNe : nameToks ≠ [] := by
    rw [hNT]
    intro hh
    have h0 := congrArg List.length hh
    simp at h0
  have hBase : pbasename name = name := pbasename_of_no_slash name hNoSlash
  have hDir : pdirname name = [] := pdirname_of_no_slash name hNoSlash
  have hSplit : splitOnChar '.' name = nameToks := by
    rw [hName]
    exact splitOnChar_joinChar '.' nameToks hNe hToksDot
  have hRev : nameToks.reverse
      = strSrt :: ((forcedToks forced).reverse ++ ((specialToks special).reverse ++
          (L :: tl :: title.reverse))) := by
    simp [hNT, List.reverse_append, List.append_assoc]
  have hstop : ∀ l s : Str, ∀ f : Bool,
      scan_filename_tokens (tl :: title.reverse) l s f = ⟨l, s, f, tl :: title.reverse⟩ :=
    fun l s f => scan_cons_stop title.reverse l s tl f hTl1 hTl2 hTl3 hTl4 hTl5 hTl6 hTl7
  have hL : ∀ ts : List Str, ∀ l s : Str, ∀ f : Bool,
      scan_filename_tokens (L :: ts) l s f = scan_filename_tokens ts (lowerStr L) s f :=
    fun ts l s f => scan_cons_lang ts l s L f hLen hKw1 hKw2 hKw3
  have hScan : scan_filename_tokens nameToks.reverse strUnknown [] false
      = ⟨lowerStr L, special, forced, tl :: title.reverse⟩ := by
    rw [hRev, scan_cons_srt]
    cases forced with
    | false =>
      rw [forcedToks_false, List.reverse_nil, List.nil_append]
      rcases hSpecial with hS | hS | hS <;> subst hS
      · rw [specialToks_nil, List.reverse_nil, List.nil_append, hL, hstop]
      · rw [specialToks_sdh, List.reverse_singleton, List.singleton_append,
          scan_cons_sdh, hL, hstop]
      · rw [specialToks_cc, List.reverse_singleton, List.singleton_append,
          scan_cons_cc, hL, hstop]
    | true =>
      rw [forcedToks_true, List.reverse_singleton, List.singleton_append, scan_cons_forced]
      rcases hSpecial with hS | hS | hS <;> subst hS
      · rw [specialToks_nil, List.reverse_nil, List.nil_append, hL, hstop]
      · rw [specialToks_sdh, List.reverse_singleton, List.singleton_append,
          scan_cons_sdh, hL, hstop]
      · rw [specialToks_cc, List.reverse_singleton, List.singleton_append,
          scan_cons_cc, hL, hstop]
  have hKwF : lowerStr L ≠ strForced := by
    intro hh
    have h6 : (lowerStr L).length = 6 := by rw [hh]; rfl
    rw [lowerStr_length] at h6
    rcases hLen with h | h <;> omega
  have hNotDigits : isDigits12 L = false := by
    cases hd : isDigits12 L with
    | false => rfl
    | true =>
      have hall : L.all Char.isDigit = true := by
        simp only [isDigits12, Bool.and_eq_true] at hd
        exact hd.2
      exact absurd (lowerStr_of_all_digits L hall) hUpper
  have hLMatch : strip_token_matches language (lowerStr L) L = false := by
    simp [strip_token_matches, hKw1, hKwF, hKw2, hKw3, hNotDigits,
      (Ne.symm hUpper : L ≠ lowerStr L), (Ne.symm hLangNe : L ≠ language)]
  have hStrip : strip_tokens language (lowerStr L) nameToks.reverse
      = L :: tl :: title.reverse := by
    rw [hRev, strip_cons_matches _ _ _ _ (strip_matches_srt language (lowerStr L))]
    cases forced with
    | false =>
      rw [forcedToks_false, List.reverse_nil, List.nil_append]
      rcases hSpecial with hS | hS | hS <;> subst hS
      · rw [specialToks_nil, List.reverse_nil, List.nil_append,
          strip_cons_stop _ _ _ _ hLMatch]
      · rw [specialToks_sdh, List.reverse_singleton, List.singleton_append,
          strip_cons_matches _ _ _ _ (strip_matches_sdh language (lowerStr L)),
          strip_cons_stop _ _ _ _ hLMatch]
      · rw [specialToks_cc, List.reverse_singleton, List.singleton_append,
          strip_cons_matches _ _ _ _ (strip_matches_cc language (lowerStr L)),
          strip_cons_stop _ _ _ _ hLMatch]
    | true =>
      rw [forcedToks_true, List.reverse_singleton, List.singleton_append,
        strip_cons_matches _ _ _ _ (strip_matches_forced language (lowerStr L))]
      rcases hSpecial with hS | hS | hS <;> subst hS
      · rw [specialToks_nil, List.reverse_nil, List.nil_append,
          strip_cons_stop _ _ _ _ hLMatch]
      · rw [specialToks_sdh, List.reverse_singleton, List.singleton_append,
          strip_cons_matches _ _ _ _ (strip_matches_sdh language (lowerStr L)),
          strip_cons_stop _ _ _ _ hLMatch]
      · rw [specialToks_cc, List.reverse_singleton, List.singleton_append,
          strip_cons_matches _ _ _ _ (strip_matches_cc language (lowerStr L)),
          strip_cons_stop _ _ _ _ hLMatch]
  refine ⟨?_, ?_, ?_⟩
  · show (validate_sub_lang iso
        (scan_filename_tokens ((splitOnChar '.' (pbasename name)).reverse)
          strUnknown [] false).subLang,
      (scan_filename_tokens ((splitOnChar '.' (pbasename name)).reverse)
          strUnknown [] false).special,
      (scan_filename_tokens ((splitOnChar '.' (pbasename name)).reverse)
          strUnknown [] false).forced) = (lowerStr L, special, forced)
    rw [hBase, hSplit, hScan]
    have hval : validate_sub_lang iso (lowerStr L) = lowerStr L := by
      unfold validate_sub_lang
      rw [if_pos (by rw [lowerStr_length]; exact hLen)]
      rcases hValid with hv | hv <;> simp [hv]
    rw [hval]
  · rw [hBase, hSplit, hStrip]
  · show probe_new_filename [] name (pdirname name)
      ((strip_tokens language (lowerStr L)
        ((splitOnChar '.' (pbasename name)).reverse)).reverse)
      language special forced (List.length ([] : List Str) + 1) 0
      = some (joinChar '.' (title ++ [tl, L] ++ [language]
          ++ specialToks special ++ forcedToks forced ++ [strSrt]))
    rw [hBase, hSplit, hStrip, hDir]
    set candToks : List Str := title ++ [tl, L] ++ [language]
      ++ specialToks special ++ forcedToks forced ++ [strSrt] with hCT
    have hMemC : ∀ t ∈ candToks, t ∈ nameToks ∨ t = language := by
      intro t ht
      rw [hCT] at ht
      rcases List.mem_append.mp ht with h1 | h1
      · rcases List.mem_append.mp h1 with h2 | h2
        · rcases List.mem_append.mp h2 with h3 | h3
          · rcases List.mem_append.mp h3 with h4 | h4
            · exact Or.inl (by
                rw [hNT]
                exact List.mem_append_left _ (List.mem_append_left _
                  (List.mem_append_left _ h4)))
            · exact Or.inr (by simpa using h4)
          · exact Or.inl (by
              rw [hNT]
              exact List.mem_append_left _ (List.mem_append_left _
                (List.mem_append_right _ h3)))
        · exact Or.inl (by
            rw [hNT]
            exact List.mem_append_left _ (List.mem_append_right _ h2))
      · exact Or.inl (by
          rw [hNT]
          exact List.mem_append_right _ h1)
    have hCandNoSlash : '/' ∉ joinChar '.' candToks := by
      intro hc
      rcases eq_sep_or_mem_of_mem_joinChar '.' '/' candToks hc with h | ⟨t, ht, hct⟩
      · exact absurd h (by decide)
      · rcases hMemC t ht with h2 | rfl
        · exact hToksSlash t h2 hct
        · exact hLangSlash hct
    have hcand : build_candidate [] (L :: tl :: title.reverse).reverse language special
        forced 0 = joinChar '.' candToks := by
      simp only [build_candidate]
      rw [if_neg (by decide : ¬(1 ≤ 0))]
      have htoks : (L :: tl :: title.reverse).reverse ++ ([] : List Str) ++ [language]
          ++ specialToks special ++ forcedToks forced ++ [strSrt] = candToks := by
        rw [hCT]
        simp [List.reverse_cons, List.reverse_reverse, List.append_assoc]
      rw [htoks]
      exact pjoin_nil_left _ hCandNoSlash
    simp only [probe_new_filename]
    rw [hcand]
    split_ifs with h1 h2
    · rfl
    · exact absurd h2 (List.not_mem_nil _)
    · rfl

/-- Witness for C10 at `movie.EN.srt` with resolved language `en`: the
tokenizer parses language `en`, the strip phase keeps `EN` and `movie`, and
the rebuilt name is `movie.EN.en.srt`. -/
theorem C10_case_mismatch_keeps_uppercase_token_witness :
    get_filename_language isoDemo
      (joinChar '.' ([] ++ [['m','o','v','i','e'], ['E','N']]
        ++ specialToks [] ++ forcedToks false ++ [strSrt]))
      = (['e','n'], [], false) ∧
    strip_tokens ['e','n'] (lowerStr ['E','N'])
      ((splitOnChar '.' (pbasename (joinChar '.' ([] ++ [['m','o','v','i','e'], ['E','N']]
        ++ specialToks [] ++ forcedToks false ++ [strSrt])))).reverse)
      = [['E','N'], ['m','o','v','i','e']] ∧
    get_new_filename []
      (joinChar '.' ([] ++ [['m','o','v','i','e'], ['E','N']]
        ++ specialToks [] ++ forcedToks false ++ [strSrt]))
      ['e','n'] (lowerStr ['E','N']) [] false
      = some (joinChar '.' ([] ++ [['m','o','v','i','e'], ['E','N']] ++ [['e','n']]
          ++ specialToks [] ++ forcedToks false ++ [strSrt])) := by
  have h := C10_case_mismatch_keeps_uppercase_token isoDemo [] ['m','o','v','i','e']
    ['E','N'] ['e','n'] [] false
    (by decide) (by decide) (by decide) (by decide) (by decide) (by decide)
    (by decide) (by decide) (by decide) (by decide) (by decide) (by decide)
    (by decide) (by decide) (by decide) (by decide) (by decide) (by decide)
    (by decide) (by decide) (by decide) (by decide)
  refine ⟨h.1, ?_, h.2.2⟩
  have h2 := h.2.1
  rw [h2]
  decide

/-- The SDH line regex `(\[.*\]|<.*>|\(.*\))` applied with `re.match`
(anchored at line start only; source lines 398 and 408): a line matches iff
it starts with `[`, `<` or `(` and the corresponding closing bracket occurs
somewhere later in the line (`.*` is unconstrained, and `.` matches every
character of a line, which contains no newline after the split). -/
def is_sdh_line (line : Str) : Bool :=
  match line with
  | [] => false
  | c :: rest =>
    (decide (c = '[') && decide (']' ∈ rest)) ||
    (decide (c = '<') && decide ('>' ∈ rest)) ||
    (decide (c = '(') && decide (')' ∈ rest))

/-- Python's `\s` on the ASCII whitespace characters. -/
def isPySpace (c : Char) : Bool :=
  decide (c = ' ') || decide (c = '\t') || decide (c = '\n') || decide (c = '\r') ||
  decide (c = '\x0b') || decide (c = '\x0c')

/-- One match attempt of `\n\s*\n` at a position whose character is `'\n'`:
the greedy `\s*` takes the maximal whitespace run after it and backtracks to
end on a `'\n'`, so the match consumes up to the *last* `'\n'` of that run.
Returns the remainder after the match, or `none` when the run contains no
further `'\n'` (no match at this position). -/
def blank_run_tail (rest : Str) : Option Str :=
  let run := rest.takeWhile isPySpace
  let runTrunc := (run.reverse.dropWhile (fun c => ¬(c = '\n'))).reverse
  if runTrunc = [] then none else some (rest.drop runTrunc.length)

/-- Implements `re.sub(r"\n\s*\n", "\n", input_text)` (source line 401): left-to-right,
non-overlapping replacement of each blank-line run by a single newline;
scanning resumes after each replacement.  The fuel (initialised to the text
length, which one character of progress per step never exhausts) makes the
scan structurally recursive. -/
def collapse_blank_go : Nat → Str → Str
  | 0, s => s
  | _ + 1, [] => []
  | fuel + 1, c :: rest =>
    if c = '\n' then
      match blank_run_tail rest with
      | some rest' => '\n' :: collapse_blank_go fuel rest'
      | none => c :: collapse_blank_go fuel rest
    else c :: collapse_blank_go fuel rest

/-- The blank-line collapse of `percent_sdh` (source line 401). -/
def collapse_blank (s : Str) : Str := collapse_blank_go s.length s

/-- The SDH heuristic `percent_sdh` (source lines 397–411): collapse runs of blank lines,
split on `'\n'`, walk the lines incrementing `total_count` for every line
and `sdh_count` for every regex-matching line, and return
`round(sdh_count / total_count, 2)`.  The division of the two counters is
the exact fraction `⟨sdh_count, total_count⟩`; `round2` abstracts Python's
float `round(·, 2)`. -/
def percent_sdh (round2 : PyFrac → PyFrac) (input_text : Str) : PyFrac :=
  let collapsed := collapse_blank input_text
  let counts := (splitOnChar '\n' collapsed).foldl
    (fun (p : Nat × Nat) line => (if is_sdh_line line then p.1 + 1 else p.1, p.2 + 1))
    (0, 0)
  round2 ⟨(counts.1 : Int), counts.2⟩

theorem foldl_count_pair (p : Str → Bool) (ls : List Str) (a b : Nat) :
    ls.foldl (fun (q : Nat × Nat) line => (if p line then q.1 + 1 else q.1, q.2 + 1)) (a, b)
      = (a + ls.countP p, b + ls.length) := by
  induction ls generalizing a b with
  | nil => simp
  | cons l ls ih =>
    rw [List.foldl_cons, ih]
    simp only [List.countP_cons, List.length_cons, Prod.mk.injEq]
    split_ifs with h <;> exact ⟨by omega, by omega⟩

theorem splitOnChar_append_sep_self (sep : Char) (s : Str) :
    splitOnChar sep (s ++ [sep]) = splitOnChar sep s ++ [[]] := by
  induction s with
  | nil => simp [splitOnChar]
  | cons c cs ih =>
    by_cases h : c = sep
    · simp [splitOnChar, h, ih]
    · simp only [List.cons_append, splitOnChar, if_neg h]
      have ih' : splitOnChar sep (cs.append [sep]) = splitOnChar sep cs ++ [[]] := ih
      rw [ih']
      cases hs : splitOnChar sep cs with
      | nil => exact absurd hs (splitOnChar_ne_nil sep cs)
      | cons t ts => simp

/-- C9: for every input string (the empty string included), `percent_sdh`
first collapses runs of blank lines, splits the result on newlines, counts
every line produced by that split in `total_count` (so `total_count ≥ 1`
always and the division is defined) and each line matching the anchored
bracket regex in `sdh_count`, and returns `round(sdh_count/total_count, 2)`;
and a terminal newline contributes a trailing empty line to the split, hence
to `total_count`. -/
theorem C9_percent_sdh_spec (round2 : PyFrac → PyFrac) (s : Str) :
    0 < (splitOnChar '\n' (collapse_blank s)).length ∧
    percent_sdh round2 s
      = round2 ⟨((splitOnChar '\n' (collapse_blank s)).countP is_sdh_line : Int),
          (splitOnChar '\n' (collapse_blank s)).length⟩ ∧
    splitOnChar '\n' (s ++ ['\n']) = splitOnChar '\n' s ++ [[]] := by
  refine ⟨List.length_pos.mpr (splitOnChar_ne_nil _ _), ?_,
    splitOnChar_append_sep_self '\n' s⟩
  have hfold := foldl_count_pair is_sdh_line (splitOnChar '\n' (collapse_blank s)) 0 0
  simp only [percent_sdh, hfold]
  simp

/-- The pipeline configuration (the `argparse` options that gate the
decision engine; process-lifetime, read-only). -/
structure Config where
  threeLetter : Bool
  keepOnly : List Str
  requireLangConfidence : Int
  minSdhConfidence : Int
  maxSdhConfidence : Int
  rejectSdhConfidence : Int
  verbose : Bool

/-- Language resolution (source lines 117–130): when the classifier's
language name is literally `"Unknown"`, a fixed sentinel (`unk`/`un`
depending on the configured code length); otherwise the classifier's code
converted to the configured length (`none` models the wrappers' Python
`False` on a failed conversion). -/
def resolve_language (iso : Iso) (threeLetter : Bool) (newLangCode : Str) : Option Str :=
  if to_lang_name iso newLangCode = some strUnknown then
    some (if threeLetter then strUnk else strUn)
  else if threeLetter then to_3_letter_lang iso newLangCode
  else to_2_letter_lang iso newLangCode

/-- Normalization of the `--keep-only` list (source lines 147–155): each
entry is lowercased and converted to the configured code length; a falsy
result (conversion failure, or an empty string) is silently dropped. -/
def normalize_keep_langs (iso : Iso) (threeLetter : Bool) (keepOnly : List Str) : List Str :=
  keepOnly.filterMap (fun lang =>
    match (if threeLetter then to_3_letter_lang iso (lowerStr lang)
           else to_2_letter_lang iso (lowerStr lang)) with
    | none => none
    | some l => if l = [] then none else some l)

/-- Python `"\n\n".join(subtitles)` (source line 86). -/
def joinDoubleNewline : List Str → Str
  | [] => []
  | [t] => t
  | t :: ts => t ++ '\n' :: '\n' :: joinDoubleNewline ts

/-- The filesystem action the per-file pipeline performs. -/
inductive Action where
  | skippedNoSubtitles : Action
  | deleted : Action
  | noChange : Action
  | renamed : Str → Action
  | refusedUnknownRename : Action
  | skippedLowConfidence : Action
  | pyError : Action
  | probeHung : Action
deriving DecidableEq, Repr

/-- The decision portion of `lang_detect_srt` (source lines 80–201) in live
(`--rename-files`) mode, given the signals the external collaborators
produce for one file: the parsed subtitle entry contents `subs`, the
classifier's code `newLangCode` and normalized confidence `classifierProb`
(both scaled by 100, source lines 90 and 95), and `fs`, the paths existing
on disk.  `round2` abstracts Python's float `round(·, 2)` inside
`percent_sdh`.  `pyError` models the `TypeError` the source raises when a
failed code conversion (Python `False`) reaches the string join inside
`get_new_filename`; `probeHung` models its unbounded collision probe not
terminating.  In dry-run mode the source performs no filesystem action;
`deleted` and `renamed` are exactly the branches guarding `os.remove`
(line 168) and `os.rename` (line 190), `refusedUnknownRename` the reported
refusal of lines 193–199, and the remaining outcomes fall through with no
action. -/
def lang_detect_action (iso : Iso) (round2 : PyFrac → PyFrac) (fs : List Str)
    (cfg : Config) (file : Str) (subs : List Str) (newLangCode : Str)
    (classifierProb : PyFrac) : Action :=
  if subs = [] then Action.skippedNoSubtitles
  else
    let subtitlesText := joinDoubleNewline subs
    let fl := get_filename_language iso file
    let sdhConfidence := (percent_sdh round2 subtitlesText).mulNat 100
    let newLangConfidence := classifierProb.mulNat 100
    match resolve_language iso cfg.threeLetter newLangCode with
    | none => Action.pyError
    | some newLanguage =>
      let special := sdh_hysteresis cfg.verbose cfg.minSdhConfidence cfg.maxSdhConfidence
        cfg.rejectSdhConfidence sdhConfidence fl.2.1
      match get_new_filename fs file newLanguage fl.1 special fl.2.2 with
      | none => Action.probeHung
      | some newFilename =>
        if cfg.keepOnly ≠ [] ∧
            newLanguage ∉ normalize_keep_langs iso cfg.threeLetter cfg.keepOnly ∧
            cfg.requireLangConfidence ≤ pyInt newLangConfidence then
          Action.deleted
        else if newFilename = file then Action.noChange
        else if cfg.requireLangConfidence ≤ pyInt newLangConfidence then
          (if ¬(to_lang_name iso newLangCode = some strUnknown) then
            Action.renamed newFilename
          else Action.refusedUnknownRename)
        else Action.skippedLowConfidence

/-- C3: whenever the keep-only set is non-empty, the resolved language is
not in the keep-only set normalized to the configured code length (invalid
codes dropped), and the truncated confidence percentage reaches
`requireLangConfidence`, the pipeline terminates with the Delete action —
regardless of the computed target path, i.e. before the
target-equals-original (no-change) comparison, so a file can be deleted
even when its computed target path equals its original path (the witness
instantiates exactly that situation). -/
theorem C3_keep_only_deletes_before_no_change (iso : Iso) (round2 : PyFrac → PyFrac)
    (fs : List Str) (cfg : Config) (file : Str) (subs : List Str) (newLangCode : Str)
    (classifierProb : PyFrac) (rl nf : Str)
    (hSubs : ¬(subs = []))
    (hResolve : resolve_language iso cfg.threeLetter newLangCode = some rl)
    (hKeep : cfg.keepOnly ≠ [])
    (hNotMem : rl ∉ normalize_keep_langs iso cfg.threeLetter cfg.keepOnly)
    (hConf : cfg.requireLangConfidence ≤ pyInt (classifierProb.mulNat 100))
    (hBuild : get_new_filename fs file rl (get_filename_language iso file).1
        (sdh_hysteresis cfg.verbose cfg.minSdhConfidence cfg.maxSdhConfidence
          cfg.rejectSdhConfidence
          ((percent_sdh round2 (joinDoubleNewline subs)).mulNat 100)
          (get_filename_language iso file).2.1)
        (get_filename_language iso file).2.2 = some nf) :
    lang_detect_action iso round2 fs cfg file subs newLangCode classifierProb
      = Action.deleted := by
  simp only [lang_detect_action, if_neg hSubs, hResolve, hBuild]
  rw [if_pos ⟨hKeep, hNotMem, hConf⟩]

/-- Witness for C3: with `--keep-only en` and a file `movie.fr.srt`
classified as French at confidence 0.7 (threshold 50), the pipeline deletes
the file even though the computed target path equals the original path. -/
theorem C3_keep_only_deletes_before_no_change_witness :
    lang_detect_action isoDemo (fun q => q) [] ⟨false, [['e','n']], 50, 5, 85, 1, false⟩
      exPathFr [['h','i']] ['f','r'] ⟨7, 10⟩ = Action.deleted ∧
    get_new_filename [] exPathFr ['f','r'] ['f','r'] [] false = some exPathFr :=
  ⟨C3_keep_only_deletes_before_no_change isoDemo (fun q => q) []
    ⟨false, [['e','n']], 50, 5, 85, 1, false⟩ exPathFr [['h','i']] ['f','r'] ⟨7, 10⟩
    ['f','r'] exPathFr (by decide) (by decide) (by decide) (by decide) (by decide)
    (by decide), by decide⟩

/-- C4: for a file that passes the keep-only filter and whose computed
target path differs from its original path, the file is renamed to the
target iff the truncated confidence percentage reaches
`requireLangConfidence` and the classifier's language name is not
`"Unknown"`; when the name is `"Unknown"` the rename is refused even though
the target was computed; when the truncated confidence is below the
threshold the file is skipped; and raising `requireLangConfidence` can only
turn a rename into a non-rename, never the reverse. -/
theorem C4_confidence_gate (iso : Iso) (round2 : PyFrac → PyFrac)
    (fs : List Str) (cfg : Config) (file : Str) (subs : List Str) (newLangCode : Str)
    (classifierProb : PyFrac) (rl nf : Str)
    (hSubs : ¬(subs = []))
    (hResolve : resolve_language iso cfg.threeLetter newLangCode = some rl)
    (hKeepPass : cfg.keepOnly = [] ∨ rl ∈ normalize_keep_langs iso cfg.threeLetter cfg.keepOnly)
    (hBuild : get_new_filename fs file rl (get_filename_language iso file).1
        (sdh_hysteresis cfg.verbose cfg.minSdhConfidence cfg.maxSdhConfidence
          cfg.rejectSdhConfidence
          ((percent_sdh round2 (joinDoubleNewline subs)).mulNat 100)
          (get_filename_language iso file).2.1)
        (get_filename_language iso file).2.2 = some nf)
    (hDiff : ¬(nf = file)) :
    (lang_detect_action iso round2 fs cfg file subs newLangCode classifierProb
        = Action.renamed nf
      ↔ cfg.requireLangConfidence ≤ pyInt (classifierProb.mulNat 100) ∧
        ¬(to_lang_name iso newLangCode = some strUnknown)) ∧
    (cfg.requireLangConfidence ≤ pyInt (classifierProb.mulNat 100) →
      to_lang_name iso newLangCode = some strUnknown →
      lang_detect_action iso round2 fs cfg file subs newLangCode classifierProb
        = Action.refusedUnknownRename) ∧
    (¬(cfg.requireLangConfidence ≤ pyInt (classifierProb.mulNat 100)) →
      lang_detect_action iso round2 fs cfg file subs newLangCode classifierProb
        = Action.skippedLowConfidence) ∧
    (∀ req' : Int, cfg.requireLangConfidence ≤ req' →
      lang_detect_action iso round2 fs { cfg with requireLangConfidence := req' }
          file subs newLangCode classifierProb = Action.renamed nf →
      lang_detect_action iso round2 fs cfg file subs newLangCode classifierProb
        = Action.renamed nf) := by
  have hred : ∀ req : Int,
      lang_detect_action iso round2 fs { cfg with requireLangConfidence := req }
          file subs newLangCode classifierProb
        = if cfg.keepOnly ≠ [] ∧
              rl ∉ normalize_keep_langs iso cfg.threeLetter cfg.keepOnly ∧
              req ≤ pyInt (classifierProb.mulNat 100) then Action.deleted
          else if nf = file then Action.noChange
          else if req ≤ pyInt (classifierProb.mulNat 100) then
            (if ¬(to_lang_name iso newLangCode = some strUnknown) then Action.renamed nf
             else Action.refusedUnknownRename)
          else Action.skippedLowConfidence := by
    intro req
    simp only [lang_detect_action, if_neg hSubs, hResolve, hBuild]
  have hmain : lang_detect_action iso round2 fs cfg file subs newLangCode classifierProb
      = if cfg.keepOnly ≠ [] ∧
            rl ∉ normalize_keep_langs iso cfg.threeLetter cfg.keepOnly ∧
            cfg.requireLangConfidence ≤ pyInt (classifierProb.mulNat 100) then Action.deleted
        else if nf = file then Action.noChange
        else if cfg.requireLangConfidence ≤ pyInt (classifierProb.mulNat 100) then
          (if ¬(to_lang_name iso newLangCode = some strUnknown) then Action.renamed nf
           else Action.refusedUnknownRename)
        else Action.skippedLowConfidence := hred cfg.requireLangConfidence
  have hKeepNot : ∀ req : Int, ¬(cfg.keepOnly ≠ [] ∧
      rl ∉ normalize_keep_langs iso cfg.threeLetter cfg.keepOnly ∧
      req ≤ pyInt (classifierProb.mulNat 100)) := by
    intro req hc
    rcases hKeepPass with h | h
    · exact hc.1 h
    · exact hc.2.1 h
  refine ⟨?_, ?_, ?_, ?_⟩
  · rw [hmain, if_neg (hKeepNot cfg.requireLangConfidence), if_neg hDiff]
    by_cases hc : cfg.requireLangConfidence ≤ pyInt (classifierProb.mulNat 100) <;>
      by_cases hu : to_lang_name iso newLangCode = some strUnknown <;>
      simp [hc, hu]
  · intro hc hu
    rw [hmain, if_neg (hKeepNot cfg.requireLangConfidence), if_neg hDiff,
      if_pos hc, if_neg (by simpa using hu)]
  · intro hc
    rw [hmain, if_neg (hKeepNot cfg.requireLangConfidence), if_neg hDiff, if_neg hc]
  · intro req' hle hren
    rw [hred req', if_neg (hKeepNot req'), if_neg hDiff] at hren
    rw [hmain, if_neg (hKeepNot cfg.requireLangConfidence), if_neg hDiff]
    by_cases hc' : req' ≤ pyInt (classifierProb.mulNat 100)
    · rw [if_pos hc'] at hren
      rw [if_pos (le_trans hle hc')]
      by_cases hu : to_lang_name iso newLangCode = some strUnknown
      · rw [if_neg (by simpa using hu)] at hren
        exact absurd hren (by simp)
      · rw [if_pos (by simpa using hu)]
    · rw [if_neg hc'] at hren
      exact absurd hren (by simp)

/-- Witness for C4: `movie.fr.srt` classified as English at confidence 0.9
with default threshold 50 and no keep-only set is renamed to
`movie.en.srt`. -/
theorem C4_confidence_gate_witness :
    lang_detect_action isoDemo (fun q => q) [] ⟨false, [], 50, 5, 85, 1, false⟩
      exPathFr [['h','i']] ['e','n'] ⟨9, 10⟩ = Action.renamed exPathEn :=
  (C4_confidence_gate isoDemo (fun q => q) [] ⟨false, [], 50, 5, 85, 1, false⟩
    exPathFr [['h','i']] ['e','n'] ⟨9, 10⟩ ['e','n'] exPathEn
    (by decide) (by decide) (Or.inl rfl) (by decide) (by decide)).1.mpr
    ⟨by decide, by decide⟩

end SrtLangDetect
